import Mathlib

/-!
# go-gzip-embedder: the generator `main.go` and the handlers it emits

`main.go` walks a source directory and writes a Go file that holds

* one package-level `[]byte` variable per embedded file (the gzip stream of
  the file), named by `IdentifierFromFileName`,
* `gzipHandler`, which serves such a variable either as is or decompressed,
* `Handler`, a `switch r.URL.Path` with one `case` per file and a `default`
  that answers 404.

The development below embeds the generator as functions on an explicit
generator state and gives the emitted handlers their meaning on an explicit
`ResponseWriter`.  Go strings are rendered as `String`; the only string
functions whose result depends on the encoding (`regexp`, `cases.Title`,
`strings.ToLower`) are applied to text that the first of them has already
reduced to ASCII letters, digits and spaces.
-/

set_option maxRecDepth 100000

namespace GzipEmbedder

/-! ## Strings -/

/-- The character class `[A-Za-z0-9]` of `identifierFromFileNameReHelper`. -/
def isAlnum (c : Char) : Bool :=
  c.isUpper || c.isLower || c.isDigit

/-- ASCII letters, the cased characters that can reach the title caser. -/
def isLetter (c : Char) : Bool :=
  c.isUpper || c.isLower

/-- Worker of `identifierFromFileNameReHelper.ReplaceAllString(name, " ")` for the
pattern `[^A-Za-z0-9]+`.  The flag says that the scan is inside a match: the
greedy `+` extends the match over every following character outside the class,
and the whole match is replaced by one space, written when the match starts. -/
def replaceAllNonAlnum : Bool → List Char → List Char
  | _, [] => []
  | inMatch, c :: cs =>
    if isAlnum c then c :: replaceAllNonAlnum false cs
    else if inMatch then replaceAllNonAlnum true cs
    else ' ' :: replaceAllNonAlnum true cs

/-- The transformer loop of `cases.Title(language.Und, cases.NoLower)` on the
characters that `replaceAllNonAlnum` can produce.  A cased character that is
not in the middle of a word is mapped to title case and starts a word; in the
middle of a word it is copied (`NoLower`).  A digit is uncased and has word
break class `Numeric`: it is copied and leaves `isMidWord` as it is.  The space
is a break: it is copied and clears `isMidWord`.  Characters outside this
alphabet never reach the caser here and are treated like the space. -/
def titleNoLower : Bool → List Char → List Char
  | _, [] => []
  | isMidWord, c :: cs =>
    if isLetter c then
      if isMidWord then c :: titleNoLower true cs
      else c.toUpper :: titleNoLower true cs
    else if c.isDigit then c :: titleNoLower isMidWord cs
    else c :: titleNoLower false cs

/-- The call `strings.ReplaceAll(s, " ", "")`. -/
def removeSpaces (s : List Char) : List Char :=
  s.filter (fun c => c != ' ')

/-- The expression `strings.ToLower(string(pascalCase[0])) + pascalCase[1:]`, for a
non-empty `pascalCase`. -/
def lowerFirst : List Char → List Char
  | [] => []
  | c :: cs => c.toLower :: cs

/-- The value of `pascalCase` in `IdentifierFromFileName`. -/
def pascalCase (name : List Char) : List Char :=
  removeSpaces (titleNoLower false (replaceAllNonAlnum false name))

/-- Go `IdentifierFromFileName`. -/
def IdentifierFromFileName (name : String) : String :=
  let pascalCase := pascalCase name.data
  if pascalCase = [] then "" else ⟨lowerFirst pascalCase⟩

/-! ### The identifier as the specification words it -/

/-- Worker of `alnumRuns`: `cur` is the run being read. -/
def alnumRunsFrom : List Char → List Char → List (List Char)
  | cur, [] => if cur = [] then [] else [cur]
  | cur, c :: cs =>
    if isAlnum c then alnumRunsFrom (cur ++ [c]) cs
    else (if cur = [] then [] else [cur]) ++ alnumRunsFrom [] cs

/-- The maximal runs of characters of `[A-Za-z0-9]` of a name, in order; every
run of other characters separates two of them. -/
def alnumRuns (name : List Char) : List (List Char) :=
  alnumRunsFrom [] name

/-- Upper-cases the first letter of a run, that is the first of its characters that
is a letter, and leaves the other characters, digits before that letter
included. -/
def upperFirstLetter : List Char → List Char
  | [] => []
  | c :: cs => if isLetter c then c.toUpper :: cs else c :: upperFirstLetter cs

/-- Whether a run read so far already holds a letter. -/
def hasLetter (s : List Char) : Bool :=
  s.any isLetter

/-- The identifier in the words of the specification: split into maximal
alphanumeric runs, upper-case the first letter of each, concatenate, lower-case
the first character of the result. -/
def deriveIdentifierSpec (name : String) : String :=
  ⟨lowerFirst ((alnumRuns name.data).map upperFirstLetter).flatten⟩

/-- Go `path.Ext`, scanning the path from its end: `acc` is the text already passed.
The scan stops without an extension at the first `/`. -/
def extScan : List Char → List Char → List Char
  | [], _ => []
  | c :: cs, acc =>
    if c = '/' then []
    else if c = '.' then c :: acc
    else extScan cs (c :: acc)

/-- Go `path.Ext`. -/
def Ext (path : String) : String :=
  ⟨extScan path.data.reverse []⟩

/-- Go `strings.Contains`. -/
def stringsContains : List Char → List Char → Bool
  | [], substr => substr.isEmpty
  | c :: cs, substr => substr.isPrefixOf (c :: cs) || stringsContains cs substr

/-! ## Maps -/

/-- Assignment `m[k] = v` on a Go map kept as an association list. -/
def mapSet {β : Type} (m : List (String × β)) (k : String) (v : β) : List (String × β) :=
  (k, v) :: m.filter (fun e => e.1 != k)

/-- Lookup `m[k]` with its presence flag. -/
def mapGet {β : Type} (m : List (String × β)) (k : String) : Option β :=
  m.lookup k

/-! ## net/http -/

/-- A byte of a `[]byte`. -/
abbrev Byte := UInt8

/-- Go `http.Header`, keyed by canonical header names.  Every key used by the
generated code is written in canonical form already. -/
structure HttpHeader where
  entries : List (String × List String)
deriving DecidableEq, Repr

/-- The empty header map. -/
def HttpHeader.empty : HttpHeader := ⟨[]⟩

/-- Go `Header.Set`. -/
def HttpHeader.Set (h : HttpHeader) (key value : String) : HttpHeader :=
  ⟨mapSet h.entries key [value]⟩

/-- The values stored under a key, `none` when the key is absent. -/
def HttpHeader.Values (h : HttpHeader) (key : String) : Option (List String) :=
  mapGet h.entries key

/-- Go `Header.Get`: the first value under the key, `""` when there is none. -/
def HttpHeader.Get (h : HttpHeader) (key : String) : String :=
  match h.Values key with
  | some (v :: _) => v
  | _ => ""

/-- The part of `*http.Request` the handlers read. -/
structure Request where
  Path : String
  Header : HttpHeader
deriving DecidableEq, Repr

/-- An `http.ResponseWriter` together with what it has put on the wire.
`header` is the map returned by `w.Header()`; `status` is the status sent by
the first `WriteHeader`; `sent` is the header map as it stood at that moment,
which is what the client receives; `body` is the bytes written. -/
structure ResponseWriter where
  header : HttpHeader
  status : Option Nat
  sent : HttpHeader
  body : List Byte
deriving DecidableEq, Repr

/-- The writer the server hands to a handler. -/
def ResponseWriter.fresh : ResponseWriter :=
  { header := HttpHeader.empty, status := none, sent := HttpHeader.empty, body := [] }

/-- The statement `w.Header().Set(key, value)`. -/
def ResponseWriter.HeaderSet (w : ResponseWriter) (key value : String) : ResponseWriter :=
  { w with header := w.header.Set key value }

/-- Go `ResponseWriter.WriteHeader`: the first call sends the status line and the
header map; a later call changes nothing. -/
def ResponseWriter.WriteHeader (w : ResponseWriter) (statusCode : Nat) : ResponseWriter :=
  match w.status with
  | some _ => w
  | none => { w with status := some statusCode, sent := w.header }

/-- Go `ResponseWriter.Write`: sends `WriteHeader(200)` first when no status has
been sent, then the bytes. -/
def ResponseWriter.Write (w : ResponseWriter) (p : List Byte) : ResponseWriter :=
  let w1 := w.WriteHeader 200
  { w1 with body := w1.body ++ p }

/-! ## compress/gzip -/

/-- What a `*gzip.Reader` yields when it is read until a `Read` reports an error:
the bytes the reads have returned up to that point, and the error unless it is
`io.EOF`. -/
structure GzipStream where
  out : List Byte
  err : Option String
deriving DecidableEq, Repr

/-- The two entry points of `compress/gzip` that the program uses.
`compress val` is the content of the buffer after
`gzip.NewWriterLevel(buf, gzip.BestCompression)`, `Write(val)` and `Close()`;
none of the three fails on a `bytes.Buffer` with a valid level.
`NewReader data` is `gzip.NewReader(bytes.NewBuffer(data))`: it fails when the
member header cannot be read, and otherwise gives a reader whose content is only
decoded by later reads. -/
structure Gzip where
  compress : List Byte → List Byte
  NewReader : List Byte → Except String GzipStream

/-- Go `io.Copy(w, gzipReader)`: every chunk a read returns is written to `w`; the
copy ends at the first read that reports an error, and its result is dropped
by the caller.  `Write` appends, so the chunks are written here in one piece; with
nothing read there is no `Write`. -/
def ioCopy (w : ResponseWriter) (src : GzipStream) : ResponseWriter :=
  if src.out = [] then w else w.Write src.out

/-! ## The generator -/

/-- One `case` clause written by `genHandlerCall`: the string literals of the
clause and the arguments of its call `gzipHandler(constId, mimeType, w, r)`. -/
structure Case where
  exprs : List String
  constId : String
  mimeType : String
deriving DecidableEq, Repr

/-- What the generator has produced so far: the map `globalConsts`, whose values
are the literals of a `[]byte{...}` expression, and the clauses added to the
`switch` group `g`, in order. -/
structure GenState where
  globalConsts : List (String × List Nat)
  cases : List Case
deriving DecidableEq, Repr

/-- The generated file: the variables of its `var (...)` block and the `switch` of
`Handler`, whose `default` clause is fixed. -/
structure File where
  vars : List (String × List Nat)
  cases : List Case
deriving DecidableEq, Repr

/-- A step of `filepath.Walk`: the path relative to `*srcPath`, whether it is a
directory, and whether the walk reported an error for it. -/
structure WalkEntry where
  relPath : String
  IsDir : Bool
  err : Bool
deriving DecidableEq, Repr

/-- The ways the generator panics while reading the source tree. -/
inductive Panic where
  | walk (path : String)
  | readFile (path : String)
deriving DecidableEq, Repr

/-- Everything the generator takes from outside: the flag `-root-route`, the gzip
package, `mime.TypeByExtension`, `os.ReadFile(path.Join(*srcPath, ·))` with
`none` for an error, and the entries `filepath.Walk(*srcPath, ·)` visits, in
its order. -/
structure Env where
  rootRoute : String
  gzip : Gzip
  TypeByExtension : String → String
  ReadFile : String → Option (List Byte)
  walk : List WalkEntry

/-- The default of the flag `-root-route`. -/
def defaultRootRoute : String := "index.html"

/-- Go `makeGlobalBinConst`: one literal `int(b)` per byte. -/
def makeGlobalBinConst (globalConsts : List (String × List Nat)) (name : String)
    (val : List Byte) : List (String × List Nat) :=
  mapSet globalConsts name (val.map (fun b => b.toNat))

/-- Go `makeGlobalGzippedBinConst`. -/
def makeGlobalGzippedBinConst (gz : Gzip) (globalConsts : List (String × List Nat))
    (name : String) (val : List Byte) : List (String × List Nat) :=
  makeGlobalBinConst globalConsts name (gz.compress val)

/-- Go `genHandlerCall`. -/
def genHandlerCall (env : Env) (g : GenState) (fileName : String) : Except Panic GenState :=
  let constId := IdentifierFromFileName fileName
  match env.ReadFile fileName with
  | none => .error (.readFile fileName)
  | some data =>
    let globalConsts := makeGlobalGzippedBinConst env.gzip g.globalConsts constId data
    let httpPath := "/" ++ fileName
    let exprs := if httpPath = env.rootRoute then ["/", httpPath] else [httpPath]
    .ok { globalConsts := globalConsts,
          cases := g.cases ++
            [{ exprs := exprs, constId := constId,
               mimeType := env.TypeByExtension (Ext fileName) }] }

/-- The callback that `genRootHandler` hands to `filepath.Walk`, run over the
entries of the walk: it panics on an error and calls `genHandlerCall` for every
entry that is not a directory. -/
def walkFunc (env : Env) : GenState → List WalkEntry → Except Panic GenState
  | g, [] => .ok g
  | g, e :: es =>
    if e.err then .error (.walk e.relPath)
    else if !e.IsDir then
      match genHandlerCall env g e.relPath with
      | .error p => .error p
      | .ok g1 => walkFunc env g1 es
    else walkFunc env g es

/-- Go `genRootHandler`: the clauses of the `switch` come from the walk of
`*srcPath`; the `default` clause that follows them is the same in every
generated file and is part of `Handler` below. -/
def genRootHandler (env : Env) (g : GenState) : Except Panic GenState :=
  walkFunc env g env.walk

/-- Go `main`, up to the rendering of the file: `genRootHandler` fills the switch
and `globalConsts`, then every entry of `globalConsts` becomes a variable. -/
def main (env : Env) : Except Panic File :=
  match genRootHandler env { globalConsts := [], cases := [] } with
  | .error p => .error p
  | .ok g => .ok { vars := g.globalConsts, cases := g.cases }

/-! ## The generated handlers -/

/-- The value of the package-level variable `name` of the generated file: its
literals converted to `byte`.  `genHandlerCall` registers the variable of a
clause before it writes the clause, so a clause never names a missing one. -/
def File.var (f : File) (name : String) : List Byte :=
  ((mapGet f.vars name).getD []).map UInt8.ofNat

/-- The function `gzipHandler` written by `genGzipHandler`. -/
def gzipHandler (gz : Gzip) (data : List Byte) (mimeType : String) (w : ResponseWriter)
    (r : Request) : ResponseWriter :=
  let w := w.HeaderSet "Content-Type" mimeType
  let w := w.HeaderSet "Cache-Control" "private, max-age=0"
  let w := w.HeaderSet "Expires" "-1"
  if stringsContains (r.Header.Get "Accept-Encoding").data "gzip".data then
    let w := w.HeaderSet "Content-Encoding" "gzip"
    let w := w.WriteHeader 200
    w.Write data
  else
    match gz.NewReader data with
    | .error _ => w.WriteHeader 500
    | .ok gzipReader =>
      let w := w.WriteHeader 200
      ioCopy w gzipReader

/-- The function `Handler` written by `genRootHandler`: the first clause with a
literal equal to `r.URL.Path` runs, and the `default` clause otherwise. -/
def Handler (gz : Gzip) (f : File) (w : ResponseWriter) (r : Request) : ResponseWriter :=
  match f.cases.find? (fun c => c.exprs.contains r.Path) with
  | some c => gzipHandler gz (f.var c.constId) c.mimeType w r
  | none => w.WriteHeader 404

/-- The response of a handler to a request on a new connection. -/
def respond (handler : ResponseWriter → Request → ResponseWriter) (r : Request) :
    ResponseWriter :=
  handler ResponseWriter.fresh r

/-! ## A gzip codec for stored blocks -/

/-- One bit step of the reflected CRC-32 with polynomial `0xedb88320`. -/
def crc32Bit (c : Nat) : Nat :=
  if c % 2 = 1 then (c >>> 1) ^^^ 0xedb88320 else c >>> 1

/-- Feeds one byte to the CRC register. -/
def crc32Byte (crc : Nat) (b : Byte) : Nat :=
  crc32Bit (crc32Bit (crc32Bit (crc32Bit (crc32Bit (crc32Bit (crc32Bit (crc32Bit
    (crc ^^^ b.toNat))))))))

/-- The checksum `crc32.ChecksumIEEE`. -/
def crc32 (data : List Byte) : Nat :=
  (data.foldl crc32Byte 0xffffffff) ^^^ 0xffffffff

/-- Little-endian bytes of a 16-bit value. -/
def le16 (n : Nat) : List Byte :=
  [UInt8.ofNat (n % 256), UInt8.ofNat (n / 256 % 256)]

/-- Little-endian bytes of a 32-bit value. -/
def le32 (n : Nat) : List Byte :=
  le16 (n % 65536) ++ le16 (n / 65536 % 65536)

/-- Value of little-endian bytes. -/
def leValue : List Byte → Nat
  | [] => 0
  | b :: bs => b.toNat + 256 * leValue bs

/-- The member header `gzip.Writer` emits at `BestCompression` with an empty
`Header`: magic, method 8, no flags, no time, `XFL = 2`, `OS = 255`. -/
def gzipHeader : List Byte :=
  [0x1f, 0x8b, 0x08, 0x00, 0x00, 0x00, 0x00, 0x00, 0x02, 0xff]

/-- Stored DEFLATE blocks of at most 65535 bytes each, the last one final. -/
def storedBlocks : Nat → List Byte → List Byte
  | 0, _ => [0x01, 0x00, 0x00, 0xff, 0xff]
  | fuel + 1, data =>
    if data.length ≤ 65535 then
      [0x01] ++ le16 data.length ++ le16 (65535 - data.length) ++ data
    else
      [0x00, 0xff, 0xff, 0x00, 0x00] ++ data.take 65535 ++ storedBlocks fuel (data.drop 65535)

/-- Writes a gzip member whose DEFLATE stream is made of stored blocks. -/
def storedCompress (val : List Byte) : List Byte :=
  gzipHeader ++ storedBlocks val.length val ++ le32 (crc32 val) ++ le32 (val.length % 2 ^ 32)

/-- Reads stored blocks: the bytes decoded, and the rest of the input after the
final block or the error that stopped the decoding. -/
def inflateStored : Nat → List Byte → List Byte → List Byte × Except String (List Byte)
  | 0, out, _ => (out, .error "unexpected EOF")
  | fuel + 1, out, hdr :: l0 :: l1 :: n0 :: n1 :: rest =>
    if hdr.toNat / 2 % 4 ≠ 0 then (out, .error "flate: unsupported block type")
    else if leValue [l0, l1] + leValue [n0, n1] ≠ 65535 then
      (out, .error "flate: corrupt input")
    else if rest.length < leValue [l0, l1] then (out ++ rest, .error "unexpected EOF")
    else if hdr.toNat % 2 = 1 then
      (out ++ rest.take (leValue [l0, l1]), .ok (rest.drop (leValue [l0, l1])))
    else
      inflateStored fuel (out ++ rest.take (leValue [l0, l1])) (rest.drop (leValue [l0, l1]))
  | _ + 1, out, _ => (out, .error "unexpected EOF")

/-- Reads one gzip member without optional header fields: `NewReader` checks the
ten header bytes; the reads decode the blocks and then compare the trailer
with the checksum and the length of what was decoded. -/
def storedNewReader (data : List Byte) : Except String GzipStream :=
  match data with
  | id1 :: id2 :: cm :: flg :: _ :: _ :: _ :: _ :: _ :: _ :: body =>
    if id1 ≠ 0x1f ∨ id2 ≠ 0x8b ∨ cm ≠ 0x08 then .error "gzip: invalid header"
    else if flg ≠ 0 then .error "gzip: optional header fields are not read"
    else
      match inflateStored (body.length + 1) [] body with
      | (out, .error e) => .ok { out := out, err := some e }
      | (out, .ok trailer) =>
        if trailer.length < 8 then .ok { out := out, err := some "unexpected EOF" }
        else if leValue (trailer.take 4) ≠ crc32 out ∨
            leValue ((trailer.drop 4).take 4) ≠ out.length % 2 ^ 32 then
          .ok { out := out, err := some "gzip: invalid checksum" }
        else if trailer.length ≠ 8 then .ok { out := out, err := some "gzip: invalid header" }
        else .ok { out := out, err := none }
  | _ => .error "unexpected EOF"

/-- A gzip codec restricted to stored blocks and single members. -/
def storedGzip : Gzip :=
  { compress := storedCompress, NewReader := storedNewReader }

/-! ## Vocabulary of the statements -/

/-- The test of `gzipHandler` on the request: `strings.Contains` of the value of
`Accept-Encoding` and `"gzip"`. -/
def acceptsGzip (r : Request) : Bool :=
  stringsContains (r.Header.Get "Accept-Encoding").data "gzip".data

/-- The contract of `compress/gzip` that the uncompressed path relies on: the
reader opens on `data` and its reads deliver `R`. -/
def Gzip.Decodes (gz : Gzip) (data R : List Byte) : Prop :=
  ∃ s, gz.NewReader data = .ok s ∧ s.out = R

/-- The value, in the generated file, of the variable that
`makeGlobalGzippedBinConst` registers under `name` for the content `val`. -/
def storedPayload (gz : Gzip) (globalConsts : List (String × List Nat)) (name : String)
    (val : List Byte) : List Byte :=
  File.var { vars := makeGlobalGzippedBinConst gz globalConsts name val, cases := [] } name

/-- The response of the `default` clause on a new connection: status 404, no
header, no body. -/
def notFound : ResponseWriter :=
  { header := HttpHeader.empty, status := some 404, sent := HttpHeader.empty, body := [] }

/-! ## Sample trees and requests -/

/-- A request without headers. -/
def plainRequest (path : String) : Request :=
  { Path := path, Header := HttpHeader.empty }

/-- A request of a browser that accepts gzip. -/
def gzipRequest (path : String) : Request :=
  { Path := path, Header := ⟨[("Accept-Encoding", ["gzip, deflate, br"])]⟩ }

/-- A sample of `mime.TypeByExtension`. -/
def sampleTypeByExtension (ext : String) : String :=
  if ext = ".html" then "text/html; charset=utf-8"
  else if ext = ".css" then "text/css; charset=utf-8"
  else if ext = ".txt" then "text/plain; charset=utf-8"
  else ""

/-- Ten bytes of text: `<p>hi</p>` and a newline. -/
def indexHtml : List Byte :=
  [0x3c, 0x70, 0x3e, 0x68, 0x69, 0x3c, 0x2f, 0x70, 0x3e, 0x0a]

/-- Twenty bytes of text: `body { margin: 0; }` and a newline. -/
def appCss : List Byte :=
  [0x62, 0x6f, 0x64, 0x79, 0x20, 0x7b, 0x20, 0x6d, 0x61, 0x72,
   0x67, 0x69, 0x6e, 0x3a, 0x20, 0x30, 0x3b, 0x20, 0x7d, 0x0a]

/-- The tree of the example scenario, `index.html` and `css/app.css`, bundled with
the default root route. -/
def siteEnv : Env :=
  { rootRoute := defaultRootRoute
    gzip := storedGzip
    TypeByExtension := sampleTypeByExtension
    ReadFile := fun p =>
      if p = "index.html" then some indexHtml
      else if p = "css/app.css" then some appCss
      else none
    walk := [⟨".", true, false⟩, ⟨"css", true, false⟩, ⟨"css/app.css", false, false⟩,
             ⟨"index.html", false, false⟩] }

/-- The file generated for `siteEnv`. -/
def siteFile : File :=
  match main siteEnv with
  | .ok f => f
  | .error _ => { vars := [], cases := [] }

/-- The text `one`. -/
def textOne : List Byte := [0x6f, 0x6e, 0x65]

/-- The text `two`. -/
def textTwo : List Byte := [0x74, 0x77, 0x6f]

/-- A tree with two files whose names differ only in a separator. -/
def collisionEnv : Env :=
  { rootRoute := defaultRootRoute
    gzip := storedGzip
    TypeByExtension := sampleTypeByExtension
    ReadFile := fun p =>
      if p = "a-b.txt" then some textOne
      else if p = "a_b.txt" then some textTwo
      else none
    walk := [⟨".", true, false⟩, ⟨"a-b.txt", false, false⟩, ⟨"a_b.txt", false, false⟩] }

/-- The file generated for `collisionEnv`. -/
def collisionFile : File :=
  match main collisionEnv with
  | .ok f => f
  | .error _ => { vars := [], cases := [] }

/-- A tree with the single file `_`. -/
def underscoreEnv : Env :=
  { rootRoute := defaultRootRoute
    gzip := storedGzip
    TypeByExtension := sampleTypeByExtension
    ReadFile := fun p => if p = "_" then some textOne else none
    walk := [⟨".", true, false⟩, ⟨"_", false, false⟩] }

/-- A payload cut off inside its only block: the ten header bytes, the header of a
final stored block of five bytes, and two of the five. -/
def truncatedPayload : List Byte :=
  gzipHeader ++ [0x01, 0x05, 0x00, 0xfa, 0xff, 0x68, 0x65]

/-- A payload that ends right after the ten header bytes. -/
def headerOnlyPayload : List Byte := gzipHeader

/-! ## Characters and the identifier -/

theorem toUpper_ne_space (c : Char) : (c.toUpper != ' ') = true ∨ c = ' ' := by
  unfold Char.toUpper
  simp only
  split
  · rename_i h
    left
    obtain ⟨h1, h2⟩ := h
    generalize c.toNat = n at h1 h2
    interval_cases n <;> decide
  · by_cases hc : c = ' '
    · right; exact hc
    · left; simpa using hc

theorem isLetter_ne_space (c : Char) (h : isLetter c = true) :
    (c != ' ') = true ∧ (c.toUpper != ' ') = true := by
  have h1 : c ≠ ' ' := by
    rintro rfl
    exact absurd h (by decide)
  refine ⟨by simpa using h1, ?_⟩
  rcases toUpper_ne_space c with h2 | h2
  · exact h2
  · exact absurd h2 h1

theorem isAlnum_ne_space (c : Char) (h : isAlnum c = true) : (c != ' ') = true := by
  have h1 : c ≠ ' ' := by
    rintro rfl
    exact absurd h (by decide)
  simpa using h1

theorem isLetter_isAlnum (c : Char) (h : isLetter c = true) : isAlnum c = true := by
  unfold isLetter at h
  unfold isAlnum
  simp [h]

theorem isDigit_of_alnum_not_letter (c : Char) (h : isAlnum c = true)
    (h2 : isLetter c = false) : c.isDigit = true := by
  unfold isLetter at h2
  unfold isAlnum at h
  simpa [h2] using h

theorem upperFirstLetter_append (cur : List Char) (c : Char) :
    upperFirstLetter (cur ++ [c]) =
      upperFirstLetter cur ++ [if isLetter c && !hasLetter cur then c.toUpper else c] := by
  induction cur with
  | nil =>
    by_cases h : isLetter c = true <;> simp [upperFirstLetter, hasLetter, h]
  | cons d ds ih =>
    by_cases h : isLetter d = true
    · simp [upperFirstLetter, hasLetter, h]
    · simp only [Bool.not_eq_true] at h
      simp [upperFirstLetter, hasLetter, h] at ih ⊢
      simpa [hasLetter] using ih

theorem removeSpaces_title_inMatch (l : List Char) :
    removeSpaces (titleNoLower false (replaceAllNonAlnum true l)) =
      removeSpaces (titleNoLower false (replaceAllNonAlnum false l)) := by
  cases l with
  | nil => rfl
  | cons c cs =>
    by_cases h : isAlnum c = true
    · simp [replaceAllNonAlnum, h]
    · have e1 : isLetter ' ' = false := by decide
      have e2 : Char.isDigit ' ' = false := by decide
      simp [replaceAllNonAlnum, h, titleNoLower, e1, e2, removeSpaces]

theorem runs_eq_pipeline (l : List Char) : ∀ cur : List Char,
    ((alnumRunsFrom cur l).map upperFirstLetter).flatten =
      upperFirstLetter cur ++
        removeSpaces (titleNoLower (hasLetter cur) (replaceAllNonAlnum false l)) := by
  induction l with
  | nil =>
    intro cur
    by_cases h : cur = [] <;>
      simp [alnumRunsFrom, h, replaceAllNonAlnum, titleNoLower, removeSpaces, upperFirstLetter]
  | cons c cs ih =>
    intro cur
    by_cases h : isAlnum c = true
    · simp only [alnumRunsFrom, h, if_true, replaceAllNonAlnum]
      rw [ih, upperFirstLetter_append]
      by_cases hl : isLetter c = true
      · obtain ⟨n1, n2⟩ := isLetter_ne_space c hl
        by_cases hc : hasLetter cur = true
        · have hcur : hasLetter (cur ++ [c]) = true := by simp [hasLetter] at hc ⊢; tauto
          simp [titleNoLower, hl, hc, hcur, removeSpaces, n1]
        · simp only [Bool.not_eq_true] at hc
          have hcur : hasLetter (cur ++ [c]) = true := by simp [hasLetter, hl]
          simp [titleNoLower, hl, hc, hcur, removeSpaces, n2]
      · simp only [Bool.not_eq_true] at hl
        have hd := isDigit_of_alnum_not_letter c h hl
        have n1 := isAlnum_ne_space c h
        have hcur : hasLetter (cur ++ [c]) = hasLetter cur := by simp [hasLetter, hl]
        simp [titleNoLower, hl, hd, hcur, removeSpaces, n1]
    · simp only [Bool.not_eq_true] at h
      have e1 : isLetter ' ' = false := by decide
      have e2 : Char.isDigit ' ' = false := by decide
      have key := removeSpaces_title_inMatch cs
      have ih0 := ih []
      simp only [upperFirstLetter, List.nil_append, hasLetter, List.any_nil] at ih0
      simp only [alnumRunsFrom, h, replaceAllNonAlnum, titleNoLower, e1, e2]
      simp only [Bool.false_eq_true, if_false, List.map_append, List.flatten_append, ih0]
      have e3 : removeSpaces (' ' :: titleNoLower false (replaceAllNonAlnum true cs)) =
          removeSpaces (titleNoLower false (replaceAllNonAlnum true cs)) := by
        simp [removeSpaces]
      rw [e3, key]
      by_cases hcur : cur = [] <;> simp [hcur, upperFirstLetter]

theorem pascalCase_eq_runs (l : List Char) :
    pascalCase l = ((alnumRuns l).map upperFirstLetter).flatten := by
  have h := runs_eq_pipeline l []
  simpa [alnumRuns, pascalCase, upperFirstLetter, hasLetter] using h.symm

theorem pascalCase_nil_aux (l : List Char) (hl : ∀ c ∈ l, isAlnum c = false) :
    ∀ inMatch isMidWord,
      removeSpaces (titleNoLower isMidWord (replaceAllNonAlnum inMatch l)) = [] := by
  induction l with
  | nil => intro _ _; rfl
  | cons c cs ih =>
    intro inMatch isMidWord
    have hc : isAlnum c = false := hl c (List.mem_cons_self _ _)
    have hcs : ∀ d ∈ cs, isAlnum d = false := fun d hd => hl d (List.mem_cons_of_mem _ hd)
    have e1 : isLetter ' ' = false := by decide
    have e2 : Char.isDigit ' ' = false := by decide
    cases inMatch
    · simp only [replaceAllNonAlnum, hc, titleNoLower, e1, e2, Bool.false_eq_true, if_false]
      have h := ih hcs true false
      simpa [removeSpaces] using h
    · simp only [replaceAllNonAlnum, hc, Bool.false_eq_true, if_false, if_true]
      exact ih hcs true isMidWord

/-- The text handed to the title caser holds ASCII letters, digits and spaces
only. -/
theorem replaceAllNonAlnum_alphabet (l : List Char) :
    ∀ inMatch, ∀ c ∈ replaceAllNonAlnum inMatch l, isAlnum c = true ∨ c = ' ' := by
  induction l with
  | nil => intro _ c hc; simp [replaceAllNonAlnum] at hc
  | cons d ds ih =>
    intro inMatch c hc
    by_cases hd : isAlnum d = true
    · simp only [replaceAllNonAlnum, hd, if_true, List.mem_cons] at hc
      rcases hc with hc | hc
      · left; rw [hc]; exact hd
      · exact ih false c hc
    · cases inMatch
      · simp only [replaceAllNonAlnum, hd, Bool.false_eq_true, if_false, List.mem_cons] at hc
        rcases hc with hc | hc
        · right; exact hc
        · exact ih true c hc
      · simp only [replaceAllNonAlnum, hd, Bool.false_eq_true, if_false, if_true] at hc
        exact ih true c hc

theorem IdentifierFromFileName_empty (name : String)
    (h : ∀ c ∈ name.data, isAlnum c = false) : IdentifierFromFileName name = "" := by
  unfold IdentifierFromFileName pascalCase
  simp [pascalCase_nil_aux name.data h false false]

theorem isAlnum_toUpper (c : Char) (h : isAlnum c = true) : isAlnum c.toUpper = true := by
  unfold Char.toUpper
  simp only
  split
  · rename_i hr
    obtain ⟨h1, h2⟩ := hr
    generalize c.toNat = n at h1 h2
    interval_cases n <;> decide
  · exact h

theorem isAlnum_toLower (c : Char) (h : isAlnum c = true) : isAlnum c.toLower = true := by
  unfold Char.toLower
  simp only
  split
  · rename_i hr
    obtain ⟨h1, h2⟩ := hr
    generalize c.toNat = n at h1 h2
    interval_cases n <;> decide
  · exact h

theorem titleNoLower_alphabet (l : List Char) (hl : ∀ c ∈ l, isAlnum c = true ∨ c = ' ') :
    ∀ isMidWord, ∀ c ∈ titleNoLower isMidWord l, isAlnum c = true ∨ c = ' ' := by
  induction l with
  | nil => intro _ c hc; simp [titleNoLower] at hc
  | cons d ds ih =>
    intro isMidWord c hc
    have hd := hl d (List.mem_cons_self _ _)
    have hds : ∀ c ∈ ds, isAlnum c = true ∨ c = ' ' := fun c h => hl c (List.mem_cons_of_mem _ h)
    unfold titleNoLower at hc
    split at hc
    · rename_i hlet
      split at hc
      · rcases List.mem_cons.mp hc with hc | hc
        · rw [hc]; exact hd
        · exact ih hds true c hc
      · rcases List.mem_cons.mp hc with hc | hc
        · rw [hc]; left; exact isAlnum_toUpper d (isLetter_isAlnum d hlet)
        · exact ih hds true c hc
    · split at hc
      · rcases List.mem_cons.mp hc with hc | hc
        · rw [hc]; exact hd
        · exact ih hds isMidWord c hc
      · rcases List.mem_cons.mp hc with hc | hc
        · rw [hc]; exact hd
        · exact ih hds false c hc

theorem pascalCase_alnum (l : List Char) : ∀ c ∈ pascalCase l, isAlnum c = true := by
  intro c hc
  unfold pascalCase removeSpaces at hc
  rw [List.mem_filter] at hc
  obtain ⟨hmem, hne⟩ := hc
  rcases titleNoLower_alphabet _ (replaceAllNonAlnum_alphabet l false) false c hmem with h | h
  · exact h
  · subst h; simp at hne

theorem pascalCase_length_aux (l : List Char) :
    ∀ inMatch isMidWord,
      (removeSpaces (titleNoLower isMidWord (replaceAllNonAlnum inMatch l))).length =
        (l.filter isAlnum).length := by
  induction l with
  | nil => intro _ _; rfl
  | cons c cs ih =>
    intro inMatch isMidWord
    have e1 : isLetter ' ' = false := by decide
    have e2 : Char.isDigit ' ' = false := by decide
    by_cases h : isAlnum c = true
    · by_cases hl : isLetter c = true
      · obtain ⟨n1, n2⟩ := isLetter_ne_space c hl
        cases isMidWord <;>
          simp [replaceAllNonAlnum, h, titleNoLower, hl, removeSpaces, n1, n2, List.filter_cons]
            <;> simpa [removeSpaces] using ih false true
      · simp only [Bool.not_eq_true] at hl
        have hd := isDigit_of_alnum_not_letter c h hl
        have n1 := isAlnum_ne_space c h
        simp [replaceAllNonAlnum, h, titleNoLower, hl, hd, removeSpaces, n1, List.filter_cons]
        simpa [removeSpaces] using ih false isMidWord
    · simp only [Bool.not_eq_true] at h
      cases inMatch
      · simp [replaceAllNonAlnum, h, titleNoLower, e1, e2, removeSpaces, List.filter_cons]
        simpa [removeSpaces] using ih true false
      · simp [replaceAllNonAlnum, h, List.filter_cons]
        simpa [removeSpaces] using ih true isMidWord

/-- The identifier keeps one character per alphanumeric character of the name. -/
theorem IdentifierFromFileName_length (name : String) :
    (IdentifierFromFileName name).data.length = (name.data.filter isAlnum).length := by
  have h := pascalCase_length_aux name.data false false
  unfold IdentifierFromFileName
  by_cases hp : pascalCase name.data = []
  · simp only [hp, if_true]
    rw [← h]
    unfold pascalCase at hp
    rw [hp]
  · simp only [hp, if_false]
    rw [← h]
    unfold pascalCase at hp ⊢
    cases hq : removeSpaces (titleNoLower false (replaceAllNonAlnum false name.data)) with
    | nil => exact absurd hq hp
    | cons a as => simp [lowerFirst]

/-- The identifier is made of ASCII letters and digits. -/
theorem IdentifierFromFileName_alnum (name : String) :
    ∀ c ∈ (IdentifierFromFileName name).data, isAlnum c = true := by
  intro c hc
  unfold IdentifierFromFileName at hc
  by_cases hp : pascalCase name.data = []
  · simp [hp] at hc
  · simp only [hp, if_false] at hc
    have hall := pascalCase_alnum name.data
    cases hq : pascalCase name.data with
    | nil => exact absurd hq hp
    | cons a as =>
      rw [hq] at hc hall
      simp only [lowerFirst, List.mem_cons] at hc
      rcases hc with hc | hc
      · rw [hc]; exact isAlnum_toLower a (hall a (List.mem_cons_self _ _))
      · exact hall c (List.mem_cons_of_mem _ hc)

/-- The identifier of a name with an alphanumeric character is not empty. -/
theorem IdentifierFromFileName_ne_empty (name : String)
    (h : ∃ c ∈ name.data, isAlnum c = true) : IdentifierFromFileName name ≠ "" := by
  intro he
  have hlen := IdentifierFromFileName_length name
  rw [he] at hlen
  obtain ⟨c, hc, hal⟩ := h
  have hmem : c ∈ name.data.filter isAlnum := List.mem_filter.mpr ⟨hc, hal⟩
  have hpos : 0 < (name.data.filter isAlnum).length := List.length_pos_of_mem hmem
  simp at hlen
  omega

theorem slash_append_ne_default (s : String) : "/" ++ s ≠ defaultRootRoute := by
  intro h
  have hd := congrArg String.data h
  simp [defaultRootRoute] at hd

theorem slash_append_eq_slash (s : String) (h : "/" ++ s = "/") : s = "" := by
  have hd := congrArg String.data h
  simp at hd
  exact String.ext hd

/-! ## Maps and bytes -/

theorem mapGet_mapSet_self {β : Type} (m : List (String × β)) (k : String) (v : β) :
    mapGet (mapSet m k v) k = some v := by
  simp [mapGet, mapSet, List.lookup]

theorem mapGet_mapSet_other {β : Type} (m : List (String × β)) (k k2 : String) (v : β)
    (h : k2 ≠ k) : mapGet (mapSet m k v) k2 = mapGet m k2 := by
  have hb : (k2 == k) = false := by simpa using h
  simp only [mapGet, mapSet, List.lookup, hb]
  induction m with
  | nil => rfl
  | cons e es ih =>
    obtain ⟨a, b⟩ := e
    by_cases hak : a = k
    · subst hak
      simp [List.filter_cons, List.lookup, hb, ih]
    · have hne : (a != k) = true := by simpa using hak
      simp only [List.filter_cons, hne, if_true, List.lookup]
      rw [ih]

theorem byte_ofNat_toNat (b : Byte) : UInt8.ofNat b.toNat = b := by
  cases b with
  | mk v => simp [UInt8.ofNat, UInt8.toNat]

theorem bytes_ofNat_toNat (l : List Byte) :
    (l.map (fun b => b.toNat)).map UInt8.ofNat = l := by
  induction l with
  | nil => rfl
  | cons b bs ih => simp [byte_ofNat_toNat, ih]

theorem storedPayload_eq (gz : Gzip) (globalConsts : List (String × List Nat)) (name : String)
    (val : List Byte) : storedPayload gz globalConsts name val = gz.compress val := by
  simp only [storedPayload, File.var, makeGlobalGzippedBinConst, makeGlobalBinConst,
    mapGet_mapSet_self, Option.getD_some]
  exact bytes_ofNat_toNat _

/-! ## The stored-block codec -/

theorem byte_toNat_ofNat (n : Nat) (h : n < 256) : (UInt8.ofNat n).toNat = n := by
  simp [UInt8.ofNat, UInt8.toNat, Fin.ofNat, Nat.mod_eq_of_lt h]

theorem leValue_le16 (n : Nat) (h : n ≤ 65535) : leValue (le16 n) = n := by
  have h1 : n % 256 < 256 := Nat.mod_lt _ (by norm_num)
  have h2 : n / 256 % 256 < 256 := Nat.mod_lt _ (by norm_num)
  simp only [le16, leValue, byte_toNat_ofNat _ h1, byte_toNat_ofNat _ h2]
  omega

theorem leValue_le32 (n : Nat) (h : n < 2 ^ 32) : leValue (le32 n) = n := by
  have h1 : n % 65536 % 256 < 256 := Nat.mod_lt _ (by norm_num)
  have h2 : n % 65536 / 256 % 256 < 256 := Nat.mod_lt _ (by norm_num)
  have h3 : n / 65536 % 65536 % 256 < 256 := Nat.mod_lt _ (by norm_num)
  have h4 : n / 65536 % 65536 / 256 % 256 < 256 := Nat.mod_lt _ (by norm_num)
  simp only [le32, le16, List.cons_append, List.nil_append, leValue, byte_toNat_ofNat _ h1,
    byte_toNat_ofNat _ h2, byte_toNat_ofNat _ h3, byte_toNat_ofNat _ h4]
  norm_num at h
  omega

theorem inflateStored_storedBlocks (t : List Byte) :
    ∀ (fuel : Nat) (data out : List Byte) (fuel2 : Nat),
      data.length ≤ fuel → fuel < fuel2 →
      inflateStored fuel2 out (storedBlocks fuel data ++ t) = (out ++ data, .ok t) := by
  intro fuel
  induction fuel with
  | zero =>
    intro data out fuel2 hlen hf
    have hd : data = [] := List.length_eq_zero.mp (Nat.le_zero.mp hlen)
    subst hd
    obtain ⟨k, rfl⟩ : ∃ k, fuel2 = k + 1 := ⟨fuel2 - 1, by omega⟩
    simp [storedBlocks, inflateStored, leValue]
  | succ fuel ih =>
    intro data out fuel2 hlen hf
    obtain ⟨k, rfl⟩ : ∃ k, fuel2 = k + 1 := ⟨fuel2 - 1, by omega⟩
    by_cases hsmall : data.length ≤ 65535
    · have e1 := leValue_le16 data.length hsmall
      have e2 := leValue_le16 (65535 - data.length) (by omega)
      simp only [le16] at e1 e2
      simp only [storedBlocks, hsmall, if_true, le16, List.cons_append, List.nil_append,
        List.append_assoc, inflateStored, e1, e2]
      simp
      omega
    · have e1 : leValue [(0xff : Byte), 0xff] = 65535 := by decide
      have e2 : leValue [(0x00 : Byte), 0x00] = 0 := by decide
      have hlen2 : (data.drop 65535).length ≤ fuel := by
        simp only [List.length_drop]; omega
      have hrec := ih (data.drop 65535) (out ++ data.take 65535) k hlen2 (by omega)
      have ha : (data.take 65535).length = 65535 := by
        simp only [List.length_take]; omega
      have hnot : ¬ (data.take 65535 ++ (storedBlocks fuel (data.drop 65535) ++ t)).length
          < 65535 := by
        simp only [List.length_append, ha]; omega
      simp only [storedBlocks, hsmall, if_false, List.cons_append, List.nil_append,
        List.append_assoc, inflateStored, e1, e2, hnot]
      rw [List.take_left' ha, List.drop_left' ha]
      simpa using hrec


theorem length_le_storedBlocks :
    ∀ (fuel : Nat) (data : List Byte), data.length ≤ fuel →
      data.length ≤ (storedBlocks fuel data).length := by
  intro fuel
  induction fuel with
  | zero => intro data h; simp [storedBlocks]; omega
  | succ fuel ih =>
    intro data h
    by_cases hsmall : data.length ≤ 65535
    · simp [storedBlocks, hsmall, le16]
      omega
    · have hlen2 : (data.drop 65535).length ≤ fuel := by
        simp only [List.length_drop]; omega
      have h2 := ih (data.drop 65535) hlen2
      simp only [storedBlocks, hsmall, if_false, List.length_append, List.length_take,
        List.length_cons, List.length_nil]
      simp only [List.length_drop] at h2
      omega

theorem crc32Bit_lt (c : Nat) (h : c < 2 ^ 32) : crc32Bit c < 2 ^ 32 := by
  unfold crc32Bit
  have hs : c >>> 1 < 2 ^ 32 := by
    rw [Nat.shiftRight_eq_div_pow]; omega
  split
  · exact Nat.xor_lt_two_pow hs (by norm_num)
  · exact hs

theorem crc32Byte_lt (crc : Nat) (b : Byte) (h : crc < 2 ^ 32) : crc32Byte crc b < 2 ^ 32 := by
  unfold crc32Byte
  have hb : b.toNat < 2 ^ 32 := lt_of_lt_of_le b.toNat_lt (by norm_num)
  have h0 : crc ^^^ b.toNat < 2 ^ 32 := Nat.xor_lt_two_pow h hb
  exact crc32Bit_lt _ (crc32Bit_lt _ (crc32Bit_lt _ (crc32Bit_lt _ (crc32Bit_lt _
    (crc32Bit_lt _ (crc32Bit_lt _ (crc32Bit_lt _ h0)))))))

theorem crc32_foldl_lt (data : List Byte) :
    ∀ crc, crc < 2 ^ 32 → data.foldl crc32Byte crc < 2 ^ 32 := by
  induction data with
  | nil => intro crc h; exact h
  | cons b bs ih => intro crc h; exact ih _ (crc32Byte_lt crc b h)

theorem crc32_lt (data : List Byte) : crc32 data < 2 ^ 32 := by
  unfold crc32
  exact Nat.xor_lt_two_pow (crc32_foldl_lt data _ (by norm_num)) (by norm_num)

/-- The stored-block codec reads back what it writes. -/
theorem storedGzip_roundtrip (R : List Byte) :
    storedGzip.NewReader (storedGzip.compress R) = .ok { out := R, err := none } := by
  have hfuel : R.length <
      (storedBlocks R.length R ++ (le32 (crc32 R) ++ le32 (R.length % 2 ^ 32))).length + 1 := by
    have := length_le_storedBlocks R.length R (Nat.le_refl _)
    simp only [List.length_append]; omega
  have hinf := inflateStored_storedBlocks (le32 (crc32 R) ++ le32 (R.length % 2 ^ 32))
    R.length R [] _ (Nat.le_refl _) hfuel
  simp only [storedGzip, storedCompress, gzipHeader, List.cons_append, List.nil_append,
    List.append_assoc, storedNewReader]
  rw [hinf]
  have hlt : R.length % 2 ^ 32 < 2 ^ 32 := Nat.mod_lt _ (by norm_num)
  generalize hn : R.length % 2 ^ 32 = n at hlt ⊢
  have hc := leValue_le32 (crc32 R) (crc32_lt R)
  have hl := leValue_le32 n hlt
  simp only [le32, le16, List.cons_append, List.nil_append] at hc hl ⊢
  simp [hc, hl]
  rw [← hn]
  norm_num

/-- The stored-block codec meets the contract `Gzip.Decodes` on every input. -/
theorem storedGzip_decodes (R : List Byte) :
    storedGzip.Decodes (storedGzip.compress R) R :=
  ⟨{ out := R, err := none }, storedGzip_roundtrip R, rfl⟩

/-! ## The generator -/

theorem genHandlerCall_cases (env : Env) (g g1 : GenState) (fileName : String)
    (h : genHandlerCall env g fileName = .ok g1) :
    ∃ data, env.ReadFile fileName = some data ∧
      g1.globalConsts =
        makeGlobalGzippedBinConst env.gzip g.globalConsts (IdentifierFromFileName fileName) data ∧
      g1.cases = g.cases ++
        [{ exprs := if "/" ++ fileName = env.rootRoute then ["/", "/" ++ fileName]
                    else ["/" ++ fileName],
           constId := IdentifierFromFileName fileName,
           mimeType := env.TypeByExtension (Ext fileName) }] := by
  unfold genHandlerCall at h
  cases hr : env.ReadFile fileName with
  | none => simp [hr] at h
  | some data =>
    simp only [hr] at h
    injection h with h
    subst h
    exact ⟨data, rfl, rfl, rfl⟩

theorem walkFunc_cons_ok (env : Env) (g g1 : GenState) (e : WalkEntry) (es : List WalkEntry)
    (h : walkFunc env g (e :: es) = .ok g1) :
    e.err = false ∧
      ((e.IsDir = true ∧ walkFunc env g es = .ok g1) ∨
       (e.IsDir = false ∧ ∃ g2, genHandlerCall env g e.relPath = .ok g2 ∧
          walkFunc env g2 es = .ok g1)) := by
  unfold walkFunc at h
  by_cases herr : e.err = true
  · simp [herr] at h
  · simp only [herr, Bool.false_eq_true, if_false] at h
    refine ⟨by simpa using herr, ?_⟩
    by_cases hdir : e.IsDir = true
    · simp only [hdir, Bool.not_true, Bool.false_eq_true, if_false] at h
      exact Or.inl ⟨hdir, h⟩
    · simp only [hdir, Bool.not_false, if_true] at h
      cases hc : genHandlerCall env g e.relPath with
      | error p => simp [hc] at h
      | ok g2 =>
        simp only [hc] at h
        exact Or.inr ⟨by simpa using hdir, g2, rfl, h⟩

theorem walkFunc_append_ok (env : Env) :
    ∀ (pre es : List WalkEntry) (g g1 : GenState),
      walkFunc env g (pre ++ es) = .ok g1 →
      ∃ g0, walkFunc env g pre = .ok g0 ∧ walkFunc env g0 es = .ok g1 := by
  intro pre
  induction pre with
  | nil => intro es g g1 h; exact ⟨g, rfl, h⟩
  | cons e pre ih =>
    intro es g g1 h
    rw [List.cons_append] at h
    obtain ⟨herr, hstep⟩ := walkFunc_cons_ok env g g1 e (pre ++ es) h
    rcases hstep with ⟨hdir, hrest⟩ | ⟨hdir, g2, hcall, hrest⟩
    · obtain ⟨g0, h0, h1⟩ := ih es g g1 hrest
      refine ⟨g0, ?_, h1⟩
      rw [walkFunc]
      simp [herr, hdir, h0]
    · obtain ⟨g0, h0, h1⟩ := ih es g2 g1 hrest
      refine ⟨g0, ?_, h1⟩
      rw [walkFunc]
      simp [herr, hdir, hcall, h0]

theorem walkFunc_keeps (env : Env) (id : String) :
    ∀ (es : List WalkEntry) (g g1 : GenState),
      walkFunc env g es = .ok g1 →
      (∀ e ∈ es, e.IsDir = false → IdentifierFromFileName e.relPath ≠ id) →
      mapGet g1.globalConsts id = mapGet g.globalConsts id := by
  intro es
  induction es with
  | nil =>
    intro g g1 h _
    simp only [walkFunc] at h
    injection h with h
    rw [h]
  | cons e es ih =>
    intro g g1 h hid
    have hid2 : ∀ e2 ∈ es, e2.IsDir = false → IdentifierFromFileName e2.relPath ≠ id :=
      fun e2 h2 => hid e2 (List.mem_cons_of_mem _ h2)
    obtain ⟨_, hstep⟩ := walkFunc_cons_ok env g g1 e es h
    rcases hstep with ⟨_, hrest⟩ | ⟨hdir, g2, hcall, hrest⟩
    · exact ih g g1 hrest hid2
    · rw [ih g2 g1 hrest hid2]
      obtain ⟨data, _, hconsts, _⟩ := genHandlerCall_cases env g g2 e.relPath hcall
      rw [hconsts]
      exact mapGet_mapSet_other _ _ _ _ (Ne.symm (hid e (List.mem_cons_self _ _) hdir))

theorem walkFunc_total (env : Env) :
    ∀ (es : List WalkEntry) (g : GenState),
      (∀ e ∈ es, e.err = false) →
      (∀ e ∈ es, e.IsDir = false → (env.ReadFile e.relPath).isSome = true) →
      ∃ g1, walkFunc env g es = .ok g1 ∧
        g1.cases.map (fun c => c.constId) =
          g.cases.map (fun c => c.constId) ++
            (es.filter (fun e => !e.IsDir)).map (fun e => IdentifierFromFileName e.relPath) := by
  intro es
  induction es with
  | nil => intro g _ _; exact ⟨g, rfl, by simp⟩
  | cons e es ih =>
    intro g herr hread
    have herr2 : ∀ e2 ∈ es, e2.err = false := fun e2 h2 => herr e2 (List.mem_cons_of_mem _ h2)
    have hread2 : ∀ e2 ∈ es, e2.IsDir = false → (env.ReadFile e2.relPath).isSome = true :=
      fun e2 h2 => hread e2 (List.mem_cons_of_mem _ h2)
    have he := herr e (List.mem_cons_self _ _)
    cases hdir : e.IsDir with
    | true =>
      obtain ⟨g1, h1, h2⟩ := ih g herr2 hread2
      refine ⟨g1, ?_, ?_⟩
      · rw [walkFunc]; simp [he, hdir, h1]
      · simp [List.filter_cons, hdir, h2]
    | false =>
      obtain ⟨d, hd⟩ := Option.isSome_iff_exists.mp (hread e (List.mem_cons_self _ _) hdir)
      obtain ⟨g1, h1, h2⟩ := ih
        { globalConsts :=
            makeGlobalGzippedBinConst env.gzip g.globalConsts (IdentifierFromFileName e.relPath) d,
          cases := g.cases ++
            [{ exprs := if "/" ++ e.relPath = env.rootRoute then ["/", "/" ++ e.relPath]
                        else ["/" ++ e.relPath],
               constId := IdentifierFromFileName e.relPath,
               mimeType := env.TypeByExtension (Ext e.relPath) }] } herr2 hread2
      refine ⟨g1, ?_, ?_⟩
      · rw [walkFunc]; simp [he, hdir, genHandlerCall, hd, h1]
      · simp [List.filter_cons, hdir, h2]

theorem walkFunc_no_root (env : Env) (hroot : env.rootRoute = defaultRootRoute) :
    ∀ (es : List WalkEntry) (g g1 : GenState),
      (∀ e ∈ es, e.relPath ≠ "") →
      (∀ c ∈ g.cases, "/" ∉ c.exprs) →
      walkFunc env g es = .ok g1 →
      ∀ c ∈ g1.cases, "/" ∉ c.exprs := by
  intro es
  induction es with
  | nil =>
    intro g g1 _ hg h
    simp only [walkFunc] at h
    injection h with h
    subst h
    exact hg
  | cons e es ih =>
    intro g g1 hrel hg h
    have hrel2 : ∀ e2 ∈ es, e2.relPath ≠ "" := fun e2 h2 => hrel e2 (List.mem_cons_of_mem _ h2)
    obtain ⟨_, hstep⟩ := walkFunc_cons_ok env g g1 e es h
    rcases hstep with ⟨_, hrest⟩ | ⟨_, g2, hcall, hrest⟩
    · exact ih g g1 hrel2 hg hrest
    · obtain ⟨data, _, _, hcases⟩ := genHandlerCall_cases env g g2 e.relPath hcall
      refine ih g2 g1 hrel2 ?_ hrest
      intro c hcmem
      rw [hcases, hroot] at hcmem
      simp only [slash_append_ne_default, if_false, List.mem_append, List.mem_singleton] at hcmem
      rcases hcmem with hcmem | hcmem
      · exact hg c hcmem
      · subst hcmem
        simp only [List.mem_singleton]
        intro hs
        exact hrel e (List.mem_cons_self _ _) (slash_append_eq_slash _ hs.symm)

/-- The walk keeps every clause paired with a registered constant, so `File.var`
never falls back to its default on a clause. -/
theorem walkFunc_vars_defined (env : Env) :
    ∀ (es : List WalkEntry) (g g1 : GenState),
      (∀ c ∈ g.cases, (mapGet g.globalConsts c.constId).isSome = true) →
      walkFunc env g es = .ok g1 →
      ∀ c ∈ g1.cases, (mapGet g1.globalConsts c.constId).isSome = true := by
  intro es
  induction es with
  | nil =>
    intro g g1 hg h
    simp only [walkFunc] at h
    injection h with h
    subst h
    exact hg
  | cons e es ih =>
    intro g g1 hg h
    obtain ⟨_, hstep⟩ := walkFunc_cons_ok env g g1 e es h
    rcases hstep with ⟨_, hrest⟩ | ⟨_, g2, hcall, hrest⟩
    · exact ih g g1 hg hrest
    · obtain ⟨data, _, hconsts, hcases⟩ := genHandlerCall_cases env g g2 e.relPath hcall
      refine ih g2 g1 ?_ hrest
      intro c hcmem
      rw [hcases] at hcmem
      rw [hconsts, makeGlobalGzippedBinConst, makeGlobalBinConst]
      by_cases hid : c.constId = IdentifierFromFileName e.relPath
      · rw [hid, mapGet_mapSet_self]; rfl
      · rw [mapGet_mapSet_other _ _ _ _ hid]
        simp only [List.mem_append, List.mem_singleton] at hcmem
        rcases hcmem with hcmem | hcmem
        · exact hg c hcmem
        · subst hcmem
          exact absurd rfl hid

/-- Every clause of a file that `main` returns names one of its variables. -/
theorem main_vars_defined (env : Env) (f : File) (h : main env = .ok f) :
    ∀ c ∈ f.cases, (mapGet f.vars c.constId).isSome = true := by
  unfold main genRootHandler at h
  cases hw : walkFunc env { globalConsts := [], cases := [] } env.walk with
  | error p => simp [hw] at h
  | ok g =>
    simp only [hw] at h
    injection h with h
    subst h
    exact walkFunc_vars_defined env env.walk _ g (by simp) hw

/-! ## The handlers -/

theorem Handler_default (gz : Gzip) (f : File) (r : Request)
    (hmiss : ∀ c ∈ f.cases, r.Path ∉ c.exprs) :
    respond (Handler gz f) r = notFound := by
  have hfind : f.cases.find? (fun c => c.exprs.contains r.Path) = none := by
    rw [List.find?_eq_none]
    intro c hc
    simpa using hmiss c hc
  simp only [respond, Handler]
  rw [hfind]
  rfl

/-! ## The claims -/

/-- Claim C1, as the code has it: with the default root route `index.html`, in a
tree whose relative paths are not empty, no clause of the generated `Handler`
carries the literal `/`, because `genHandlerCall` compares the route with
`"/" + fileName`; a request for `/` gets the `default` clause, status 404
without header or body, whatever the tree holds and whatever the request
headers are. -/
theorem Handler_root_default_route_not_found (gz : Gzip) (env : Env) (f : File)
    (header : HttpHeader)
    (hroot : env.rootRoute = defaultRootRoute)
    (hrel : ∀ e ∈ env.walk, e.relPath ≠ "")
    (hmain : main env = .ok f) :
    respond (Handler gz f) { Path := "/", Header := header } = notFound := by
  apply Handler_default
  unfold main genRootHandler at hmain
  cases hw : walkFunc env { globalConsts := [], cases := [] } env.walk with
  | error p => simp [hw] at hmain
  | ok g =>
    simp only [hw] at hmain
    injection hmain with hmain
    subst hmain
    exact walkFunc_no_root env hroot env.walk _ g hrel (by simp) hw

/-- In the example tree `index.html` is bundled and served with status 200 and its
ten bytes at `/index.html`, while `/` is answered 404 with no header. -/
theorem Handler_root_default_route_not_found_witness :
    siteEnv.rootRoute = "index.html" ∧
    main siteEnv = .ok siteFile ∧
    (respond (Handler storedGzip siteFile) (plainRequest "/index.html")).status = some 200 ∧
    (respond (Handler storedGzip siteFile) (plainRequest "/index.html")).body = indexHtml ∧
    respond (Handler storedGzip siteFile) (plainRequest "/") = notFound :=
  ⟨by rfl, by rfl, by decide, by decide,
    Handler_root_default_route_not_found storedGzip siteEnv siteFile HttpHeader.empty
      (by rfl) (by decide) (by rfl)⟩

/-- Claim C2: when the `Accept-Encoding` value of the request contains `gzip`,
`gzipHandler` answers with status 200, sends `Content-Encoding: gzip`, and the
body is the stored payload `P`, byte for byte. -/
theorem gzipHandler_gzip_path (gz : Gzip) (P : List Byte) (mimeType : String) (r : Request)
    (h : acceptsGzip r = true) :
    (respond (gzipHandler gz P mimeType) r).status = some 200 ∧
    (respond (gzipHandler gz P mimeType) r).sent.Values "Content-Encoding" = some ["gzip"] ∧
    (respond (gzipHandler gz P mimeType) r).body = P := by
  unfold acceptsGzip at h
  simp [respond, gzipHandler, h, ResponseWriter.fresh, ResponseWriter.HeaderSet,
    ResponseWriter.WriteHeader, ResponseWriter.Write, HttpHeader.Set, HttpHeader.Values,
    mapGet_mapSet_self]

/-- The compressed path on the payload of `index.html` for a browser request. -/
theorem gzipHandler_gzip_path_witness :
    acceptsGzip (gzipRequest "/index.html") = true ∧
    (respond (gzipHandler storedGzip (storedCompress indexHtml) "text/html")
      (gzipRequest "/index.html")).status = some 200 ∧
    (respond (gzipHandler storedGzip (storedCompress indexHtml) "text/html")
      (gzipRequest "/index.html")).sent.Values "Content-Encoding" = some ["gzip"] ∧
    (respond (gzipHandler storedGzip (storedCompress indexHtml) "text/html")
      (gzipRequest "/index.html")).body = storedCompress indexHtml :=
  ⟨by decide,
    gzipHandler_gzip_path storedGzip (storedCompress indexHtml) "text/html"
      (gzipRequest "/index.html") (by decide)⟩

/-- Claim C3: let `P` be the value of the variable that `makeGlobalGzippedBinConst`
registers for the raw bytes `R`.  With a gzip package whose reader gives `R`
back from `compress R`, a request whose `Accept-Encoding` value does not
contain `gzip` (the header may be absent) is answered with status 200, the body
`R` byte for byte, and no `Content-Encoding` header. -/
theorem gzipHandler_plain_path (gz : Gzip) (globalConsts : List (String × List Nat))
    (name : String) (R : List Byte) (mimeType : String) (r : Request)
    (hlib : gz.Decodes (gz.compress R) R) (h : acceptsGzip r = false) :
    (respond (gzipHandler gz (storedPayload gz globalConsts name R) mimeType) r).status
        = some 200 ∧
    (respond (gzipHandler gz (storedPayload gz globalConsts name R) mimeType) r).body = R ∧
    (respond (gzipHandler gz (storedPayload gz globalConsts name R) mimeType) r).sent.Values
        "Content-Encoding" = none := by
  obtain ⟨s, hs, hout⟩ := hlib
  rw [storedPayload_eq]
  unfold acceptsGzip at h
  generalize gz.compress R = P at hs
  subst hout
  by_cases he : s.out = [] <;>
  simp [respond, gzipHandler, h, hs, he, ioCopy, ResponseWriter.fresh, ResponseWriter.HeaderSet,
    ResponseWriter.WriteHeader, ResponseWriter.Write, HttpHeader.Set, HttpHeader.Values,
    mapGet, mapSet, HttpHeader.empty, List.lookup]

/-- The uncompressed path on `index.html` with the stored-block codec. -/
theorem gzipHandler_plain_path_witness :
    storedGzip.Decodes (storedGzip.compress indexHtml) indexHtml ∧
    acceptsGzip (plainRequest "/index.html") = false ∧
    (respond (gzipHandler storedGzip (storedPayload storedGzip [] "indexHtml" indexHtml)
      "text/html") (plainRequest "/index.html")).status = some 200 ∧
    (respond (gzipHandler storedGzip (storedPayload storedGzip [] "indexHtml" indexHtml)
      "text/html") (plainRequest "/index.html")).body = indexHtml ∧
    (respond (gzipHandler storedGzip (storedPayload storedGzip [] "indexHtml" indexHtml)
      "text/html") (plainRequest "/index.html")).sent.Values "Content-Encoding" = none :=
  ⟨⟨{ out := indexHtml, err := none }, by rfl, rfl⟩, by decide,
    gzipHandler_plain_path storedGzip [] "indexHtml" indexHtml "text/html"
      (plainRequest "/index.html") ⟨{ out := indexHtml, err := none }, by rfl, rfl⟩ (by decide)⟩

/-- Claim C4: for every generated file and every request whose path is not a
literal of any clause (neither the path of a bundled file nor an aliased `/`),
whatever its headers, `Handler` answers with status 404, writes no body and
sets no header.  The clauses are compared with the path by string equality. -/
theorem Handler_miss (gz : Gzip) (f : File) (r : Request)
    (hmiss : ∀ c ∈ f.cases, r.Path ∉ c.exprs) :
    respond (Handler gz f) r = notFound :=
  Handler_default gz f r hmiss

/-- In the example tree an unknown path, a prefix of a bundled path and a bundled
path in another case are all misses. -/
theorem Handler_miss_witness :
    (∀ c ∈ siteFile.cases, "/missing.js" ∉ c.exprs) ∧
    respond (Handler storedGzip siteFile) (gzipRequest "/missing.js") = notFound ∧
    respond (Handler storedGzip siteFile) (gzipRequest "/index") = notFound ∧
    respond (Handler storedGzip siteFile) (plainRequest "/INDEX.HTML") = notFound :=
  ⟨by decide,
    Handler_miss storedGzip siteFile (gzipRequest "/missing.js") (by decide),
    Handler_miss storedGzip siteFile (gzipRequest "/index") (by decide),
    Handler_miss storedGzip siteFile (plainRequest "/INDEX.HTML") (by decide)⟩

/-- Claim C5 fails as stated: the tree with `a-b.txt` and `a_b.txt` is bundled
without error although both names give the identifier `aBTxt`; the generated
file has a single variable, holding the payload of `a_b.txt`, and the clause of
`/a-b.txt` serves the content of `a_b.txt`. -/
theorem bundling_accepts_colliding_identifiers :
    main collisionEnv = .ok collisionFile ∧
    "a-b.txt" ≠ "a_b.txt" ∧
    IdentifierFromFileName "a-b.txt" = "aBTxt" ∧
    IdentifierFromFileName "a_b.txt" = "aBTxt" ∧
    collisionFile.vars.map (fun v => v.1) = ["aBTxt"] ∧
    collisionFile.var "aBTxt" = storedCompress textTwo ∧
    (respond (Handler storedGzip collisionFile) (plainRequest "/a-b.txt")).status = some 200 ∧
    (respond (Handler storedGzip collisionFile) (plainRequest "/a-b.txt")).body = textTwo :=
  ⟨by rfl, by decide, by decide, by decide, by decide, by decide, by decide, by decide⟩

/-- Claim C5, amended: bundling fails only on an error of the walk or of a read.
When the walk reports no error and every walked file can be read, bundling
completes, whether or not two paths share an identifier; every walked file gets
its clause, in walk order, calling `gzipHandler` on the variable named by its
identifier; and that variable holds the compressed content of the last walked
file with that identifier. -/
theorem bundling_total_last_file_wins (env : Env)
    (hwalk : ∀ e ∈ env.walk, e.err = false)
    (hread : ∀ e ∈ env.walk, e.IsDir = false → (env.ReadFile e.relPath).isSome = true) :
    ∃ f, main env = .ok f ∧
      f.cases.map (fun c => c.constId) =
        (env.walk.filter (fun e => !e.IsDir)).map (fun e => IdentifierFromFileName e.relPath) ∧
      ∀ pre e post d, env.walk = pre ++ e :: post → e.IsDir = false →
        env.ReadFile e.relPath = some d →
        (∀ e2 ∈ post, e2.IsDir = false →
          IdentifierFromFileName e2.relPath ≠ IdentifierFromFileName e.relPath) →
        f.var (IdentifierFromFileName e.relPath) = env.gzip.compress d := by
  obtain ⟨g1, h1, h2⟩ :=
    walkFunc_total env env.walk { globalConsts := [], cases := [] } hwalk hread
  refine ⟨{ vars := g1.globalConsts, cases := g1.cases }, ?_, ?_, ?_⟩
  · simp [main, genRootHandler, h1]
  · simpa using h2
  · intro pre e post d hsplit hdir hd hlast
    rw [hsplit] at h1
    obtain ⟨g0, _, hrest⟩ := walkFunc_append_ok env pre (e :: post) _ g1 h1
    obtain ⟨_, hstep⟩ := walkFunc_cons_ok env g0 g1 e post hrest
    rcases hstep with ⟨hdir2, _⟩ | ⟨_, g2, hcall, hpost⟩
    · rw [hdir] at hdir2; cases hdir2
    · obtain ⟨data, hdata, hconsts, _⟩ := genHandlerCall_cases env g0 g2 e.relPath hcall
      rw [hd] at hdata
      injection hdata with hdata
      subst hdata
      have hkeep := walkFunc_keeps env (IdentifierFromFileName e.relPath) post g2 g1 hpost hlast
      simp only [File.var, hkeep, hconsts, makeGlobalGzippedBinConst, makeGlobalBinConst,
        mapGet_mapSet_self, Option.getD_some]
      exact bytes_ofNat_toNat _

/-- The amended claim on the tree with `a-b.txt` and `a_b.txt`. -/
theorem bundling_total_last_file_wins_witness :
    (∀ e ∈ collisionEnv.walk, e.err = false) ∧
    (∀ e ∈ collisionEnv.walk, e.IsDir = false →
      (collisionEnv.ReadFile e.relPath).isSome = true) ∧
    ∃ f, main collisionEnv = .ok f ∧
      f.cases.map (fun c => c.constId) =
        (collisionEnv.walk.filter (fun e => !e.IsDir)).map
          (fun e => IdentifierFromFileName e.relPath) ∧
      ∀ pre e post d, collisionEnv.walk = pre ++ e :: post → e.IsDir = false →
        collisionEnv.ReadFile e.relPath = some d →
        (∀ e2 ∈ post, e2.IsDir = false →
          IdentifierFromFileName e2.relPath ≠ IdentifierFromFileName e.relPath) →
        f.var (IdentifierFromFileName e.relPath) = collisionEnv.gzip.compress d :=
  ⟨by decide, by decide, bundling_total_last_file_wins collisionEnv (by decide) (by decide)⟩

/-- Claim C6: for every name, `IdentifierFromFileName` equals the reference
definition: the maximal runs of `[A-Za-z0-9]` characters, each with its first
letter upper-cased and its other characters unchanged, concatenated in order,
with the first character of the concatenation lower-cased; `css/app.css` gives
`cssAppCss` and `index.html` gives `indexHtml`.  The first letter of a run is
its first character that is a letter: the run `2fa` becomes `2Fa`. -/
theorem IdentifierFromFileName_eq_spec :
    (∀ name : String, IdentifierFromFileName name = deriveIdentifierSpec name) ∧
    IdentifierFromFileName "css/app.css" = "cssAppCss" ∧
    IdentifierFromFileName "index.html" = "indexHtml" := by
  refine ⟨?_, by decide, by decide⟩
  intro name
  unfold IdentifierFromFileName deriveIdentifierSpec
  simp only [← pascalCase_eq_runs]
  by_cases h : pascalCase name.data = []
  · simp [h, lowerFirst]
  · simp [h]

/-- Claim C7 fails as stated: for the path `_`, and for a path made of dashes and
a slash, the identifier is the empty string, returned without an error, and `genHandlerCall` on the file `_`
succeeds, registering the payload and the handler call under the empty
identifier. -/
theorem empty_identifier_is_accepted :
    IdentifierFromFileName "_" = "" ∧
    IdentifierFromFileName "--/--" = "" ∧
    genHandlerCall underscoreEnv { globalConsts := [], cases := [] } "_" = .ok
      { globalConsts := [("", (storedCompress textOne).map (fun b => b.toNat))],
        cases := [{ exprs := ["/_"], constId := "", mimeType := "" }] } :=
  ⟨by decide, by decide, by rfl⟩

/-- Claim C7, amended: for every relative path without an ASCII alphanumeric
character, `IdentifierFromFileName` returns the empty string, and
`genHandlerCall` on a readable file of that name reports no error: it registers
the compressed content under the empty identifier and appends a clause whose
call names the empty identifier. -/
theorem genHandlerCall_empty_identifier (env : Env) (g : GenState) (fileName : String)
    (data : List Byte)
    (h : ∀ c ∈ fileName.data, isAlnum c = false)
    (hread : env.ReadFile fileName = some data) :
    IdentifierFromFileName fileName = "" ∧
    genHandlerCall env g fileName = .ok
      { globalConsts := makeGlobalGzippedBinConst env.gzip g.globalConsts "" data,
        cases := g.cases ++
          [{ exprs := if "/" ++ fileName = env.rootRoute then ["/", "/" ++ fileName]
                      else ["/" ++ fileName],
             constId := "",
             mimeType := env.TypeByExtension (Ext fileName) }] } := by
  have hid := IdentifierFromFileName_empty fileName h
  refine ⟨hid, ?_⟩
  simp only [genHandlerCall, hread, hid]

/-- The amended claim on the file `_`. -/
theorem genHandlerCall_empty_identifier_witness :
    (∀ c ∈ "_".data, isAlnum c = false) ∧
    underscoreEnv.ReadFile "_" = some textOne ∧
    IdentifierFromFileName "_" = "" ∧
    genHandlerCall underscoreEnv { globalConsts := [], cases := [] } "_" = .ok
      { globalConsts :=
          makeGlobalGzippedBinConst underscoreEnv.gzip [] "" textOne,
        cases := [] ++
          [{ exprs := if "/" ++ "_" = underscoreEnv.rootRoute then ["/", "/" ++ "_"]
                      else ["/" ++ "_"],
             constId := "",
             mimeType := underscoreEnv.TypeByExtension (Ext "_") }] } :=
  ⟨by decide, by rfl,
    genHandlerCall_empty_identifier underscoreEnv { globalConsts := [], cases := [] } "_"
      textOne (by decide) (by rfl)⟩

/-- Claim C8, as the code has it: once `gzip.NewReader` has accepted the header of
the payload, a request without `gzip` in `Accept-Encoding` is answered with
status 200 and with the bytes the reads delivered as body, also when the stream
fails after the header: the status is sent before the first read and the result
of `io.Copy` is dropped. -/
theorem gzipHandler_status_200_after_header (gz : Gzip) (data : List Byte)
    (mimeType : String) (r : Request) (s : GzipStream)
    (hopen : gz.NewReader data = .ok s) (h : acceptsGzip r = false) :
    (respond (gzipHandler gz data mimeType) r).status = some 200 ∧
    (respond (gzipHandler gz data mimeType) r).body = s.out := by
  unfold acceptsGzip at h
  by_cases he : s.out = [] <;>
  simp [respond, gzipHandler, h, hopen, he, ioCopy, ResponseWriter.fresh,
    ResponseWriter.HeaderSet, ResponseWriter.WriteHeader, ResponseWriter.Write]

/-- A payload cut off inside its block fails with `unexpected EOF` after two bytes
and is answered with status 200 and those two bytes; a payload that ends after
its header is answered with status 200 and an empty body. -/
theorem gzipHandler_status_200_after_header_witness :
    storedGzip.NewReader truncatedPayload =
      .ok { out := [0x68, 0x65], err := some "unexpected EOF" } ∧
    acceptsGzip (plainRequest "/x") = false ∧
    ((respond (gzipHandler storedGzip truncatedPayload "text/plain")
        (plainRequest "/x")).status = some 200 ∧
      (respond (gzipHandler storedGzip truncatedPayload "text/plain")
        (plainRequest "/x")).body = [0x68, 0x65]) ∧
    storedGzip.NewReader headerOnlyPayload = .ok { out := [], err := some "unexpected EOF" } ∧
    (respond (gzipHandler storedGzip headerOnlyPayload "text/plain")
        (plainRequest "/x")).status = some 200 :=
  ⟨by rfl, by decide,
    gzipHandler_status_200_after_header storedGzip truncatedPayload "text/plain"
      (plainRequest "/x") { out := [0x68, 0x65], err := some "unexpected EOF" }
      (by rfl) (by decide),
    by rfl, by decide⟩

/-- Claim C9, as the code has it: the identifiers of `1.txt` and `404.html` are
`1Txt` and `404Html`; they begin with a digit. -/
theorem IdentifierFromFileName_leading_digit :
    IdentifierFromFileName "1.txt" = "1Txt" ∧
    IdentifierFromFileName "404.html" = "404Html" ∧
    (IdentifierFromFileName "1.txt").data.head? = some '1' ∧
    Char.isDigit '1' = true ∧ isLetter '1' = false := by
  decide

/-- Claim C10: on a hit, in each of the three branches of `gzipHandler`, a status
is sent and the response carries `Content-Type` with the MIME type passed by
the clause, `Cache-Control: private, max-age=0` and `Expires: -1`; it carries
`Content-Encoding`, with the value `gzip`, exactly when the `Accept-Encoding`
value of the request contains `gzip`. -/
theorem gzipHandler_headers (gz : Gzip) (data : List Byte) (mimeType : String)
    (r : Request) :
    (respond (gzipHandler gz data mimeType) r).status.isSome = true ∧
    (respond (gzipHandler gz data mimeType) r).sent.Values "Content-Type" = some [mimeType] ∧
    (respond (gzipHandler gz data mimeType) r).sent.Values "Cache-Control" =
      some ["private, max-age=0"] ∧
    (respond (gzipHandler gz data mimeType) r).sent.Values "Expires" = some ["-1"] ∧
    (respond (gzipHandler gz data mimeType) r).sent.Values "Content-Encoding" =
      if acceptsGzip r then some ["gzip"] else none := by
  unfold acceptsGzip
  by_cases h : stringsContains (r.Header.Get "Accept-Encoding").data "gzip".data = true
  · simp [respond, gzipHandler, h, ResponseWriter.fresh, ResponseWriter.HeaderSet,
      ResponseWriter.WriteHeader, ResponseWriter.Write, HttpHeader.Set, HttpHeader.Values,
      mapGet, mapSet, HttpHeader.empty, List.lookup]
  · cases hn : gz.NewReader data with
    | error e =>
      simp [respond, gzipHandler, h, hn, ResponseWriter.fresh, ResponseWriter.HeaderSet,
        ResponseWriter.WriteHeader, ResponseWriter.Write, HttpHeader.Set, HttpHeader.Values,
        mapGet, mapSet, HttpHeader.empty, List.lookup]
    | ok s =>
      by_cases hs : s.out = [] <;>
      simp [respond, gzipHandler, h, hn, hs, ioCopy, ResponseWriter.fresh,
        ResponseWriter.HeaderSet, ResponseWriter.WriteHeader, ResponseWriter.Write,
        HttpHeader.Set, HttpHeader.Values, mapGet, mapSet, HttpHeader.empty, List.lookup]

end GzipEmbedder
